import Mathlib

/-!
Shallow embedding of `src/main.js`: a term-expansion-and-matching routine.
The program splits a text on single spaces, splits a comma-separated term
string on ", ", normalizes terms (lowercasing all but the case-sensitive
ones), expands pronoun classes, deduplicates, partitions by case
sensitivity, and matches each partition against the tokens.

JavaScript strings are modelled by `String`; `String.prototype.split` with
a literal separator is modelled by the structural splitters below;
`toUpperCase`/`toLowerCase` are modelled by per-character ASCII case
mapping (`Char.toUpper`/`Char.toLower`), which agrees with JavaScript on
the ASCII inputs the program is concerned with; `Array.prototype.includes`
is modelled by `List.contains`; `new Set(...)` spread back into an array is
modelled by first-occurrence deduplication (`dedupFirst`), matching the
insertion-order semantics of JavaScript `Set`.
-/

/-- Embedding of `const PRONOUNS` from `src/main.js`, as the ordered list of
its values (object-literal declaration order: 1st singular, 1st plural,
2nd singular). -/
def PRONOUNS : List (List String) :=
  [["I", "me", "my", "mine", "myself"],
   ["we", "us", "our", "ours", "ourselves"],
   ["you", "your", "yourself"]]

/-- Embedding of `const CASE_SENSITIVE = ["I"]` from `src/main.js`. -/
def CASE_SENSITIVE : List String := ["I"]

/-- Model of JavaScript `s.toUpperCase()` (ASCII case mapping). -/
def toUpperS (s : String) : String := ⟨s.data.map Char.toUpper⟩

/-- Model of JavaScript `s.toLowerCase()` (ASCII case mapping). -/
def toLowerS (s : String) : String := ⟨s.data.map Char.toLower⟩

/-- Embedding of `isTermCaseSensitive` from `src/main.js`:
`CASE_SENSITIVE.includes(term.toUpperCase())`. -/
def isTermCaseSensitive (term : String) : Bool :=
  CASE_SENSITIVE.contains (toUpperS term)

/-- Embedding of `findCaseSensitiveTermInstances` from `src/main.js`:
`terms.filter(term => text.includes(term))`. -/
def findCaseSensitiveTermInstances (text terms : List String) : List String :=
  terms.filter (fun term => text.contains term)

/-- Embedding of `findCaseInsensitiveTermInstances` from `src/main.js`:
lowercase both
arrays, then `terms.filter(term => text.includes(term))`. -/
def findCaseInsensitiveTermInstances (text terms : List String) : List String :=
  (terms.map toLowerS).filter (fun term => (text.map toLowerS).contains term)

/-- Helper for splitting on the single-character separator `' '`:
returns the first chunk and the remaining chunks. -/
def splitOnSpaceAux : List Char → String × List String
  | [] => ("", [])
  | c :: cs =>
    let r := splitOnSpaceAux cs
    if c = ' ' then ("", r.1 :: r.2) else (⟨c :: r.1.data⟩, r.2)

/-- Model of JavaScript `text.split(" ")`: left-to-right scan on the
single-space separator, no trimming, no collapsing; the empty string
splits to `[""]`. -/
def splitOnSpace (text : String) : List String :=
  (splitOnSpaceAux text.data).1 :: (splitOnSpaceAux text.data).2

/-- Helper for splitting on the two-character separator `", "`:
returns the first chunk and the remaining chunks.  The separator has no
proper self-overlap, so taking it greedily at the current position is
exactly JavaScript's left-to-right scan. -/
def splitOnCommaSpaceAux : List Char → String × List String
  | ',' :: ' ' :: cs =>
    let r := splitOnCommaSpaceAux cs
    ("", r.1 :: r.2)
  | c :: cs =>
    let r := splitOnCommaSpaceAux cs
    (⟨c :: r.1.data⟩, r.2)
  | [] => ("", [])

/-- Model of JavaScript `terms.split(", ")`. -/
def splitOnCommaSpace (terms : String) : List String :=
  (splitOnCommaSpaceAux terms.data).1 :: (splitOnCommaSpaceAux terms.data).2

/-- First-occurrence deduplication: the model of JavaScript
`[...new Set([...a, ...b])]` applied to the concatenation. -/
def dedupFirstAux (seen : List String) : List String → List String
  | [] => []
  | x :: xs =>
    if seen.contains x then dedupFirstAux seen xs
    else x :: dedupFirstAux (x :: seen) xs

/-- Deduplicate a list keeping the first occurrence of each element. -/
def dedupFirst (l : List String) : List String := dedupFirstAux [] l

/-- The term-normalization step of `findTermInstances` in `src/main.js`:
split on `", "`, keep case-sensitive terms as supplied, lowercase the
rest. -/
def normalizeTerms (terms : String) : List String :=
  (splitOnCommaSpace terms).map (fun term =>
    if isTermCaseSensitive term then term else toLowerS term)

/-- The pronoun-expansion step of `findTermInstances` in `src/main.js`:
`Object.values(PRONOUNS).reduce(...)` appending every class that shares a
member with the supplied terms. -/
def additionalPronouns (terms : List String) : List String :=
  PRONOUNS.foldl (fun pronounsToAdd pronounClass =>
    if terms.any (fun term => pronounClass.contains term) then
      pronounsToAdd ++ pronounClass
    else pronounsToAdd) []

/-- The merged, deduplicated term list of `findTermInstances` in
`src/main.js`: `[...new Set([...terms, ...additionalPronouns])]`. -/
def mergedTerms (terms : String) : List String :=
  dedupFirst (normalizeTerms terms ++ additionalPronouns (normalizeTerms terms))

/-- Embedding of `findTermInstances` from `src/main.js`. -/
def findTermInstances (text terms : String) : List String :=
  let tokens := splitOnSpace text
  let merged := mergedTerms terms
  let caseSensitiveTerms := merged.filter (fun term => isTermCaseSensitive term)
  let caseInsensitiveTerms := merged.filter (fun term => !isTermCaseSensitive term)
  let results :=
    if caseSensitiveTerms.length > 0 then
      findCaseSensitiveTermInstances tokens caseSensitiveTerms
    else []
  results ++ findCaseInsensitiveTermInstances tokens caseInsensitiveTerms

/-- Inverse of single-space splitting: interleave the chunks with single
spaces.  Used to state that the tokenizer splits on exactly the single
spaces of the text, with no trimming or collapsing. -/
def joinSpace : List String → String
  | [] => ""
  | [s] => s
  | s :: rest => s ++ " " ++ joinSpace rest

/-! ### Basic lemmas about the embedded operations -/

theorem contains_iff_mem (l : List String) (a : String) : l.contains a = true ↔ a ∈ l :=
  List.elem_iff

theorem char_toLower_toLower (c : Char) : Char.toLower (Char.toLower c) = Char.toLower c := by
  by_cases h : c.toNat ≥ 65 ∧ c.toNat ≤ 90
  · have hv : (Char.ofNat (c.toNat + 32)).toNat = c.toNat + 32 := by
      rw [Char.ofNat, dif_pos (Or.inl (by omega : c.toNat + 32 < 55296))]
      rfl
    simp only [Char.toLower]
    rw [if_pos h, hv, if_neg (by omega)]
  · simp only [Char.toLower]
    rw [if_neg h, if_neg h]

theorem toLowerS_toLowerS (s : String) : toLowerS (toLowerS s) = toLowerS s := by
  simp only [toLowerS, List.map_map]
  congr 1
  exact List.map_congr_left (fun a _ => char_toLower_toLower a)

theorem toLowerS_eq_empty_iff (s : String) : toLowerS s = "" ↔ s = "" := by
  cases s with
  | mk data =>
    constructor
    · intro h
      have hd : data.map Char.toLower = [] := congrArg String.data h
      have : data = [] := List.map_eq_nil_iff.1 hd
      rw [this]
    · intro h
      rw [h]
      rfl

theorem mem_dedupFirstAux (l : List String) : ∀ (seen : List String) (x : String),
    x ∈ dedupFirstAux seen l ↔ x ∈ l ∧ x ∉ seen := by
  induction l with
  | nil =>
    intro seen x
    simp [dedupFirstAux]
  | cons y ys ih =>
    intro seen x
    simp only [dedupFirstAux]
    by_cases hy : seen.contains y = true
    · rw [if_pos hy, ih]
      have hy' : y ∈ seen := (contains_iff_mem _ _).1 hy
      simp only [List.mem_cons]
      constructor
      · rintro ⟨hx, hns⟩
        exact ⟨Or.inr hx, hns⟩
      · rintro ⟨hx, hns⟩
        rcases hx with rfl | hx
        · exact absurd hy' hns
        · exact ⟨hx, hns⟩
    · rw [if_neg hy]
      have hy' : y ∉ seen := fun hm => hy ((contains_iff_mem _ _).2 hm)
      simp only [List.mem_cons, ih, List.mem_cons]
      by_cases hxy : x = y
      · subst hxy
        tauto
      · tauto

theorem mem_dedupFirst (l : List String) (x : String) : x ∈ dedupFirst l ↔ x ∈ l := by
  rw [dedupFirst, mem_dedupFirstAux]
  simp

theorem nodup_dedupFirstAux (l : List String) : ∀ seen, (dedupFirstAux seen l).Nodup := by
  induction l with
  | nil =>
    intro seen
    simp [dedupFirstAux]
  | cons y ys ih =>
    intro seen
    simp only [dedupFirstAux]
    by_cases hy : seen.contains y = true
    · rw [if_pos hy]
      exact ih seen
    · rw [if_neg hy]
      refine List.nodup_cons.2 ⟨?_, ih (y :: seen)⟩
      intro hmem
      have h := (mem_dedupFirstAux ys (y :: seen) y).1 hmem
      exact h.2 (List.mem_cons_self y seen)

theorem foldl_classes (p : List String → Bool) :
    ∀ (classes : List (List String)) (acc : List String),
      classes.foldl (fun a c => if p c then a ++ c else a) acc
        = acc ++ (classes.filter p).flatten := by
  intro classes
  induction classes with
  | nil =>
    intro acc
    simp
  | cons c cs ih =>
    intro acc
    simp only [List.foldl_cons, List.filter_cons]
    by_cases h : p c = true
    · rw [if_pos h, if_pos h, ih]
      simp
    · rw [if_neg h, if_neg h, ih]

theorem mem_additionalPronouns (termsL : List String) (cls : List String)
    (hcls : cls ∈ PRONOUNS) (t : String) (ht : t ∈ termsL) (htc : t ∈ cls) :
    ∀ m ∈ cls, m ∈ additionalPronouns termsL := by
  intro m hm
  unfold additionalPronouns
  rw [foldl_classes]
  simp only [List.nil_append]
  refine List.mem_flatten.2 ⟨cls, ?_, hm⟩
  refine List.mem_filter.2 ⟨hcls, ?_⟩
  exact List.any_eq_true.2 ⟨t, ht, (contains_iff_mem _ _).2 htc⟩

theorem joinSpace_splitOnSpaceAux (l : List Char) :
    (joinSpace ((splitOnSpaceAux l).1 :: (splitOnSpaceAux l).2)).data = l := by
  induction l with
  | nil => rfl
  | cons c cs ih =>
    by_cases hc : c = ' '
    · subst hc
      simp only [splitOnSpaceAux]
      simp only [if_true]
      simp only [joinSpace, String.data_append]
      simp only [joinSpace] at ih
      rcases h2 : (splitOnSpaceAux cs).2 with _ | ⟨r, rs⟩ <;> rw [h2] at ih <;>
        simp_all [String.data_append]
    · simp only [splitOnSpaceAux]
      rw [if_neg hc]
      simp only [joinSpace]
      rcases h2 : (splitOnSpaceAux cs).2 with _ | ⟨r, rs⟩ <;> rw [h2] at ih <;>
        simp_all [joinSpace, String.data_append]

theorem joinSpace_splitOnSpace (text : String) : joinSpace (splitOnSpace text) = text := by
  cases text with
  | mk data =>
    unfold splitOnSpace
    have h := joinSpace_splitOnSpaceAux data
    cases hj : joinSpace ((splitOnSpaceAux data).1 :: (splitOnSpaceAux data).2) with
    | mk jd =>
      rw [hj] at h
      exact congrArg String.mk h

theorem mem_empty_splitOnSpaceAux (l2 : List Char) : ∀ l1 : List Char,
    "" ∈ (splitOnSpaceAux (l1 ++ ' ' :: ' ' :: l2)).2 := by
  intro l1
  induction l1 with
  | nil =>
    simp only [List.nil_append, splitOnSpaceAux]
    simp only [if_true]
    exact List.mem_cons_self _ _
  | cons c l1 ih =>
    by_cases hc : c = ' '
    · subst hc
      simp only [List.cons_append, splitOnSpaceAux]
      simp only [if_true]
      exact List.mem_cons_of_mem _ ih
    · simp only [List.cons_append, splitOnSpaceAux]
      rw [if_neg hc]
      exact ih

theorem mem_empty_splitOnSpace (s1 s2 : String) : "" ∈ splitOnSpace (s1 ++ "  " ++ s2) := by
  unfold splitOnSpace
  have hd : (s1 ++ "  " ++ s2).data = s1.data ++ ' ' :: ' ' :: s2.data := by
    simp [String.data_append]
  rw [hd]
  exact List.mem_cons_of_mem _ (mem_empty_splitOnSpaceAux s2.data s1.data)

theorem mem_findCaseSensitive_iff (toks terms : List String) (t : String) :
    t ∈ findCaseSensitiveTermInstances toks terms ↔ t ∈ terms ∧ t ∈ toks := by
  simp [findCaseSensitiveTermInstances, List.mem_filter, contains_iff_mem]

theorem mem_findCaseInsensitive_iff (toks terms : List String) (t : String) :
    t ∈ findCaseInsensitiveTermInstances toks terms
      ↔ t ∈ terms.map toLowerS ∧ t ∈ toks.map toLowerS := by
  simp [findCaseInsensitiveTermInstances, List.mem_filter, contains_iff_mem]

theorem findTermInstances_decomp (text terms : String) :
    findTermInstances text terms =
      findCaseSensitiveTermInstances (splitOnSpace text)
          ((mergedTerms terms).filter (fun term => isTermCaseSensitive term))
        ++ findCaseInsensitiveTermInstances (splitOnSpace text)
          ((mergedTerms terms).filter (fun term => !isTermCaseSensitive term)) := by
  unfold findTermInstances
  simp only []
  split
  · rfl
  · next h =>
    have h0 : ((mergedTerms terms).filter (fun term => isTermCaseSensitive term)).length = 0 := by
      omega
    rw [List.length_eq_zero] at h0
    rw [h0]
    rfl

theorem pronoun_not_caseSensitive_lower :
    ∀ m ∈ PRONOUNS.flatten, isTermCaseSensitive m = false → toLowerS m = m := by
  decide

theorem isTermCaseSensitive_iff_upper_eq (t : String) :
    isTermCaseSensitive t = true ↔ toUpperS t = "I" := by
  rw [isTermCaseSensitive, contains_iff_mem]
  simp [CASE_SENSITIVE]

/-! ### The claims -/

/-- C3: for every string `t`, `isTermCaseSensitive t` returns `true` iff the
uppercased form of `t` is a member of the fixed case-sensitive set
`{"I"}` (= `CASE_SENSITIVE`); the classification depends only on the
uppercased form of its argument (in particular it takes no text argument
at all), and the empty string classifies as `false`. -/
theorem isTermCaseSensitive_spec :
    (∀ t : String, isTermCaseSensitive t = true ↔ toUpperS t ∈ CASE_SENSITIVE)
    ∧ (∀ t : String, isTermCaseSensitive t = true ↔ toUpperS t = "I")
    ∧ (∀ s t : String, toUpperS s = toUpperS t → isTermCaseSensitive s = isTermCaseSensitive t)
    ∧ isTermCaseSensitive "" = false := by
  refine ⟨fun t => contains_iff_mem _ _, isTermCaseSensitive_iff_upper_eq,
    fun s t h => ?_, by decide⟩
  rw [isTermCaseSensitive, isTermCaseSensitive, h]

/-- Witness for C3: applies the hypothesis-bearing conjunct at the concrete
pair `"i"`, `"I"`, whose uppercased forms agree. -/
theorem isTermCaseSensitive_spec_witness :
    isTermCaseSensitive "i" = isTermCaseSensitive "I" :=
  isTermCaseSensitive_spec.2.2.1 "i" "I" (by decide)

/-- C4: the sequence returned by `findTermInstances` is the concatenation of
the case-sensitive matches followed by the case-insensitive matches, so
every case-sensitive match precedes every case-insensitive match. -/
theorem findTermInstances_cs_before_ci (text terms : String) :
    findTermInstances text terms =
      findCaseSensitiveTermInstances (splitOnSpace text)
          ((mergedTerms terms).filter (fun term => isTermCaseSensitive term))
        ++ findCaseInsensitiveTermInstances (splitOnSpace text)
          ((mergedTerms terms).filter (fun term => !isTermCaseSensitive term)) :=
  findTermInstances_decomp text terms

/-- C5: the merged term list (normalized supplied terms unioned with the
expansion pronouns) contains no duplicate strings before it is partitioned
into the case-sensitive and case-insensitive subsets. -/
theorem mergedTerms_nodup (terms : String) : (mergedTerms terms).Nodup :=
  nodup_dedupFirstAux _ []

/-- C6: both matchers return the subsequence of the terms (after the
case-insensitive mode lowercases both sequences) that are present in the
token sequence — an existence test per term; case-sensitive matching uses
exact equality against the unmodified tokens (so `"i"` does not match
`"I"`), case-insensitive matching lowercases both sides first (so `"My"`
matches `"my"`), and an empty term or token sequence yields an empty
result. -/
theorem matchers_spec :
    (∀ toks terms : List String,
        List.Sublist (findCaseSensitiveTermInstances toks terms) terms
        ∧ ∀ t, t ∈ findCaseSensitiveTermInstances toks terms ↔ t ∈ terms ∧ t ∈ toks)
    ∧ (∀ toks terms : List String,
        List.Sublist (findCaseInsensitiveTermInstances toks terms) (terms.map toLowerS)
        ∧ ∀ t, t ∈ findCaseInsensitiveTermInstances toks terms
            ↔ t ∈ terms.map toLowerS ∧ t ∈ toks.map toLowerS)
    ∧ findCaseSensitiveTermInstances ["I"] ["i"] = []
    ∧ findCaseInsensitiveTermInstances ["my"] ["My"] = ["my"]
    ∧ (∀ toks : List String,
        findCaseSensitiveTermInstances toks [] = []
        ∧ findCaseInsensitiveTermInstances toks [] = [])
    ∧ (∀ terms : List String,
        findCaseSensitiveTermInstances [] terms = []
        ∧ findCaseInsensitiveTermInstances [] terms = []) := by
  refine ⟨fun toks terms => ⟨List.filter_sublist terms, mem_findCaseSensitive_iff toks terms⟩,
    fun toks terms => ⟨List.filter_sublist _, mem_findCaseInsensitive_iff toks terms⟩,
    by decide, by decide, fun toks => ⟨rfl, rfl⟩, fun terms => ⟨?_, ?_⟩⟩
  · simp [findCaseSensitiveTermInstances]
  · simp [findCaseInsensitiveTermInstances]

/-- C7: `findTermInstances` tokenizes by splitting only on single space
characters with no trimming or collapsing (interleaving the tokens with
single spaces recovers the text exactly), consecutive spaces yield
empty-string tokens, and punctuation stays attached to tokens (the token
`"myself,"` of scenario 3 is produced, not `"myself"`). -/
theorem tokenization_spec :
    (∀ text : String, joinSpace (splitOnSpace text) = text)
    ∧ (∀ s1 s2 : String, "" ∈ splitOnSpace (s1 ++ "  " ++ s2))
    ∧ "myself," ∈ splitOnSpace "My rights cannot be abridged by myself, only the Client"
    ∧ "myself" ∉ splitOnSpace "My rights cannot be abridged by myself, only the Client"
    ∧ splitOnSpace "a  b" = ["a", "", "b"] :=
  ⟨joinSpace_splitOnSpace, mem_empty_splitOnSpace, by decide, by decide, by decide⟩

/-- C2: pronoun expansion is class-complete: if a normalized supplied term
is an exact member of a pronoun class, every member of that class enters
the merged search set before partitioning (the supplied term is not
privileged), and consequently every class member that occurs as a token of
the text appears in the result. -/
theorem pronoun_expansion_class_complete (text terms : String) (cls : List String)
    (hcls : cls ∈ PRONOUNS) (t : String) (ht : t ∈ normalizeTerms terms) (htc : t ∈ cls) :
    (∀ m ∈ cls, m ∈ mergedTerms terms)
    ∧ (∀ m ∈ cls, m ∈ splitOnSpace text → m ∈ findTermInstances text terms) := by
  have hmerged : ∀ m ∈ cls, m ∈ mergedTerms terms := by
    intro m hm
    rw [mergedTerms, mem_dedupFirst]
    exact List.mem_append.2 (Or.inr (mem_additionalPronouns _ cls hcls t ht htc m hm))
  refine ⟨hmerged, fun m hm htok => ?_⟩
  rw [findTermInstances_decomp]
  by_cases hcs : isTermCaseSensitive m = true
  · refine List.mem_append.2 (Or.inl ?_)
    rw [mem_findCaseSensitive_iff]
    exact ⟨List.mem_filter.2 ⟨hmerged m hm, hcs⟩, htok⟩
  · have hlow : toLowerS m = m :=
      pronoun_not_caseSensitive_lower m (List.mem_flatten.2 ⟨cls, hcls, hm⟩)
        (Bool.not_eq_true _ ▸ hcs)
    refine List.mem_append.2 (Or.inr ?_)
    rw [mem_findCaseInsensitive_iff]
    constructor
    · refine List.mem_map.2 ⟨m, ?_, hlow⟩
      exact List.mem_filter.2 ⟨hmerged m hm, by simp [hcs]⟩
    · exact hlow ▸ List.mem_map.2 ⟨m, htok, rfl⟩

/-- Witness for C2: the concrete call of scenario 2, where the supplied
term `"us"` lies in the 1st-person-plural class. -/
theorem pronoun_expansion_class_complete_witness :
    (∀ m ∈ (["we", "us", "our", "ours", "ourselves"] : List String),
        m ∈ mergedTerms "Customer, us")
    ∧ (∀ m ∈ (["we", "us", "our", "ours", "ourselves"] : List String),
        m ∈ splitOnSpace "The Customer is not our client"
          → m ∈ findTermInstances "The Customer is not our client" "Customer, us") :=
  pronoun_expansion_class_complete "The Customer is not our client" "Customer, us"
    ["we", "us", "our", "ours", "ourselves"] (by decide) "us" (by decide) (by decide)

/-- C9: every element of a `findTermInstances` result whose uppercased form
is not `"I"` is a fully lowercased string — case-insensitive matches are
reported lowercased, never in the supplied or in-text casing. -/
theorem results_lowercased (text terms x : String)
    (hx : x ∈ findTermInstances text terms) (hup : toUpperS x ≠ "I") :
    toLowerS x = x := by
  rw [findTermInstances_decomp] at hx
  rcases List.mem_append.1 hx with h | h
  · exfalso
    have hxcs : isTermCaseSensitive x = true :=
      (List.mem_filter.1 ((mem_findCaseSensitive_iff _ _ _).1 h).1).2
    exact hup ((isTermCaseSensitive_iff_upper_eq x).1 hxcs)
  · rcases List.mem_map.1 ((mem_findCaseInsensitive_iff _ _ _).1 h).1 with ⟨y, _, rfl⟩
    exact toLowerS_toLowerS y

/-- Witness for C9: scenario 1 reports the supplied term `"Customer"` as the
lowercased `"customer"`, which is indeed a lowercase fixed point. -/
theorem results_lowercased_witness : toLowerS "customer" = "customer" :=
  results_lowercased "The Customer is always right" "Customer, you" "customer"
    (by decide) (by decide)

/-- C10: calling `findTermInstances` with the empty terms string searches
for the single term `""`; the result contains `""` exactly when the token
sequence has an empty-string token, and is empty otherwise. -/
theorem emptyTerm_spec (text : String) :
    ("" ∈ splitOnSpace text → "" ∈ findTermInstances text "")
    ∧ ("" ∉ splitOnSpace text → findTermInstances text "" = []) := by
  have hdecomp := findTermInstances_decomp text ""
  have hm : mergedTerms "" = [""] := by decide
  rw [hm] at hdecomp
  have h1 : ([""] : List String).filter (fun term => isTermCaseSensitive term) = [] := by decide
  have h2 : ([""] : List String).filter (fun term => !isTermCaseSensitive term) = [""] := by decide
  rw [h1, h2] at hdecomp
  constructor
  · intro htok
    rw [hdecomp]
    refine List.mem_append.2 (Or.inr ?_)
    rw [mem_findCaseInsensitive_iff]
    exact ⟨by decide, List.mem_map.2 ⟨"", htok, rfl⟩⟩
  · intro htok
    rw [hdecomp]
    have hci : findCaseInsensitiveTermInstances (splitOnSpace text) [""] = [] := by
      rw [List.eq_nil_iff_forall_not_mem]
      intro x hx
      rw [mem_findCaseInsensitive_iff] at hx
      have hx1 : x = "" := by
        have := hx.1
        simp only [List.map_cons, List.map_nil, List.mem_singleton] at this
        rw [this]
        rfl
      subst hx1
      rcases List.mem_map.1 hx.2 with ⟨y, hy, hy0⟩
      exact htok ((toLowerS_eq_empty_iff y).1 hy0 ▸ hy)
    rw [hci]
    rfl

/-- Witness for C10: the text `"a  b"` has an empty token between its two
consecutive spaces, so the empty term matches; the text `"a b"` has none,
so the result is empty. -/
theorem emptyTerm_spec_witness :
    "" ∈ findTermInstances "a  b" "" ∧ findTermInstances "a b" "" = [] :=
  ⟨(emptyTerm_spec "a  b").1 (by decide), (emptyTerm_spec "a b").2 (by decide)⟩

/-- Counterexample to C1 as stated: the returned sequence of scenario 2
does not contain `"Customer"` — the case-insensitive term was lowercased
to `"customer"` before matching and is reported in that form. -/
theorem scenario2_no_uppercase_Customer :
    "Customer" ∉ findTermInstances "The Customer is not our client" "Customer, us" := by
  decide

/-- C1 (amended): for scenario 2 the supplied term `"us"` triggers the
expansion of the whole 1st-person-plural class into the merged search set,
and the returned sequence is exactly `["customer", "our"]` — it contains
`"our"` and the lowercased `"customer"` (not `"Customer"`). -/
theorem scenario2_spec :
    (∀ m ∈ (["we", "us", "our", "ours", "ourselves"] : List String),
        m ∈ mergedTerms "Customer, us")
    ∧ findTermInstances "The Customer is not our client" "Customer, us"
        = ["customer", "our"] := by
  refine ⟨?_, by decide⟩
  decide

/-- Counterexample to C8 as stated: the returned sequence of scenario 3
does not contain `"Client"` — the case-insensitive term was lowercased to
`"client"` before matching and is reported in that form. -/
theorem scenario3_no_uppercase_Client :
    "Client" ∉
      findTermInstances "My rights cannot be abridged by myself, only the Client" "I, Client" := by
  decide

/-- C8 (amended): for scenario 3 the supplied term `"I"` triggers the
1st-person-singular class, with `"I"` landing in the case-sensitive
partition of the merged terms; the returned sequence is exactly
`["client", "my"]` — it contains `"my"` (the token `"My"` matched
case-insensitively) and the lowercased `"client"` (not `"Client"`), and it
does not contain `"myself"` because whitespace-only splitting leaves the
trailing comma on the token `"myself,"`. -/
theorem scenario3_spec :
    (∀ m ∈ (["I", "me", "my", "mine", "myself"] : List String),
        m ∈ mergedTerms "I, Client")
    ∧ "I" ∈ (mergedTerms "I, Client").filter (fun term => isTermCaseSensitive term)
    ∧ findTermInstances "My rights cannot be abridged by myself, only the Client" "I, Client"
        = ["client", "my"] := by
  refine ⟨?_, by decide, by decide⟩
  decide

example : findTermInstances "The Customer is always right" "Customer, you" = ["customer"] := by decide
example : findTermInstances "The Customer is not our client" "Customer, us" = ["customer", "our"] := by decide
example : findTermInstances "My rights cannot be abridged by myself, only the Client" "I, Client" = ["client", "my"] := by decide
example : findTermInstances "i) In this clause my documents are read" "Me" = ["my"] := by decide
